import Mathlib

/-!
Verification of the core data structures and of the alias-hint collection
pipeline of the TreeNET topology-inference tool, shallowly embedded from
`AliasHintCollector.cpp` (v2 Reader), `Router.cpp` (v3 Forester) and
`SubnetSiteSet.h`.
-/

/-- An IPv4 address: a 32-bit value with total order by integer value
(class InetAddress of the sources). -/
abbrev InetAddress := Nat

/-- InetAddress::smaller, the strict comparator used by the sorting calls of
the sources. -/
def InetAddress.smaller (a b : InetAddress) : Bool := decide (a < b)

/-! ### IP look-up table -/

/-- The IP-ID counter classifications of an IP table entry, as listed in the
spec's data model. -/
inductive IPIDCounterType where
  | UNKNOWN
  | HEALTHY_COUNTER
  | RANDOM_COUNTER
  | ECHO_COUNTER
  | FAST_COUNTER
deriving DecidableEq

/-- Modelled from the spec: class IPTableEntry is not under src/.  Per the
spec it is keyed by an InetAddress and carries a TTL-to-reach and an
IP-ID-counter classification; the remaining attributes play no role in the
claims considered here. -/
structure IPTableEntry where
  ip : InetAddress
  ttl : Nat
  counterType : IPIDCounterType
deriving DecidableEq

/-- Modelled from the spec: class IPLookUpTable is not under src/.  It maps an
InetAddress to its IPTableEntry; entries are created on first mention and are
never deleted during a run. -/
abbrev IPLookUpTable := List IPTableEntry

/-- IPLookUpTable::lookUp: the entry registered for an address, if any. -/
def IPLookUpTable.lookUp (t : IPLookUpTable) (a : InetAddress) : Option IPTableEntry :=
  List.find? (fun e => e.ip == a) t

/-- Modelled from the spec: IPLookUpTable::create registers a fresh entry for
an address; composed with IPTableEntry::setTTL exactly as the pair of calls
appears in AliasHintCollector::collect, the new entry carries the given TTL
and a yet-unknown counter classification. -/
def IPLookUpTable.createWithTTL (t : IPLookUpTable) (a : InetAddress) (ttl : Nat) :
    IPLookUpTable :=
  t ++ [⟨a, ttl, IPIDCounterType.UNKNOWN⟩]

/-! ### AliasHintCollector: preprocessing loop -/

/-- AliasHintCollector::collect lines 50-54: if the current address has no
entry in the IP table, create one and set its TTL to the current neighborhood
TTL. -/
def ensureEntry (t : IPLookUpTable) (c : InetAddress) (ttl : Nat) : IPLookUpTable :=
  if (t.lookUp c).isSome then t else t.createWithTTL c ttl

/-- The body of the preprocessing loop of AliasHintCollector::collect
(lines 38-58): walk the sorted list, erase an element equal to the previous
one, and register any kept address missing from the IP table with the current
neighborhood TTL. -/
def preprocessLoop (currentTTL : Nat) :
    InetAddress → IPLookUpTable → List InetAddress → List InetAddress × IPLookUpTable
  | _, t, [] => ([], t)
  | prev, t, c :: rest =>
    if c = prev then
      preprocessLoop currentTTL c t rest
    else
      (c :: (preprocessLoop currentTTL c (ensureEntry t c currentTTL) rest).1,
        (preprocessLoop currentTTL c (ensureEntry t c currentTTL) rest).2)

/-- The preprocessing stage of AliasHintCollector::collect: sort IPsToProbe
ascending with InetAddress::smaller (std::list::sort is stable), then run the
duplicate-removal and registration loop with previous = InetAddress(0). -/
def collectPreprocess (ips : List InetAddress) (t : IPLookUpTable) (currentTTL : Nat) :
    List InetAddress × IPLookUpTable :=
  preprocessLoop currentTTL 0 t (ips.mergeSort (fun a b => ! InetAddress.smaller b a))

/-! ### AliasHintCollector: thread-count arithmetic -/

/-- AliasHintCollector::collect line 71: the bound on concurrently running
phase-1 collectors (the +1 accounts for the collector thread itself). -/
def maxCollectors (maxThreads nbIPIDs : Nat) : Nat :=
  maxThreads / (nbIPIDs + 1)

/-- AliasHintCollector::collect lines 68-75: the number of phase-1 collector
threads (and the size of the phase-1 thread array), computed after the early
return for nbIPs = 0. -/
def phase1NbThreads (maxThreads nbIPIDs nbIPs : Nat) : Nat :=
  if nbIPs > maxCollectors maxThreads nbIPIDs then maxCollectors maxThreads nbIPIDs
  else nbIPs

/-- AliasHintCollector::collect lines 130-133: the thread-array size used by
phases 2 to 4 (one thread per IP, at most maxThreads). -/
def laterPhasesNbThreads (maxThreads nbIPs : Nat) : Nat :=
  if nbIPs > maxThreads then maxThreads else nbIPs

/-! ### AliasHintCollector: probe tokens -/

/-- The token state of an AliasHintCollector: the constructor sets
tokenCounter = 1; the counter is an unsigned long int (64 bits). -/
structure CollectorTokenState where
  tokenCounter : Nat

/-- AliasHintCollector::AliasHintCollector, restricted to the token state. -/
def CollectorTokenState.init : CollectorTokenState := ⟨1⟩

/-- AliasHintCollector::getProbeToken: return the current counter value and
increment the counter (64-bit wrap-around made explicit). -/
def getProbeToken (s : CollectorTokenState) : Nat × CollectorTokenState :=
  (s.tokenCounter, ⟨(s.tokenCounter + 1) % 2 ^ 64⟩)

/-- The values returned by n successive getProbeToken calls from state s. -/
def probeTokensFrom (s : CollectorTokenState) : Nat → List Nat
  | 0 => []
  | n + 1 =>
    let p := getProbeToken s
    p.1 :: probeTokensFrom p.2 n

/-- The values returned by the first n getProbeToken calls of a run. -/
def probeTokens (n : Nat) : List Nat :=
  probeTokensFrom CollectorTokenState.init n

/-! ### Helper lemmas -/

theorem phase1NbThreads_eq_min (maxThreads nbIPIDs nbIPs : Nat) :
    phase1NbThreads maxThreads nbIPIDs nbIPs
      = min nbIPs (maxCollectors maxThreads nbIPIDs) := by
  unfold phase1NbThreads
  split <;> omega

theorem laterPhasesNbThreads_eq_min (maxThreads nbIPs : Nat) :
    laterPhasesNbThreads maxThreads nbIPs = min nbIPs maxThreads := by
  unfold laterPhasesNbThreads
  split <;> omega

theorem probeTokensFrom_eq_range' (n : Nat) :
    ∀ c : Nat, c + n ≤ 2 ^ 64 → probeTokensFrom ⟨c⟩ n = List.range' c n := by
  induction n with
  | zero => intro c _; rfl
  | succ m ih =>
    intro c hc
    cases m with
    | zero => rfl
    | succ k =>
      have h1 : (c + 1) % 2 ^ 64 = c + 1 := Nat.mod_eq_of_lt (by omega)
      simp only [probeTokensFrom, getProbeToken, List.range', h1]
      exact congrArg (c :: ·) (ih (c + 1) (by omega))

/-! ### Claim theorems (collector arithmetic and tokens) -/

/-- C1: in AliasHintCollector::collect, for every nbIPs > 0 the phase-1
collector-thread count equals min(nbIPs, maxThreads / (nbIPIDs + 1)), and
whenever maxThreads < nbIPIDs + 1 it equals 0, which is also the size of the
thread array allocated for the phase-1 dispatch loop. -/
theorem C1_phase1_thread_count (maxThreads nbIPIDs nbIPs : Nat) (hpos : 0 < nbIPs) :
    phase1NbThreads maxThreads nbIPIDs nbIPs = min nbIPs (maxThreads / (nbIPIDs + 1)) ∧
      (maxThreads < nbIPIDs + 1 → phase1NbThreads maxThreads nbIPIDs nbIPs = 0) := by
  refine ⟨phase1NbThreads_eq_min maxThreads nbIPIDs nbIPs, fun hlt => ?_⟩
  have hz : maxThreads / (nbIPIDs + 1) = 0 := Nat.div_eq_of_lt hlt
  rw [phase1NbThreads_eq_min]
  unfold maxCollectors
  omega

theorem C1_phase1_thread_count_witness :
    0 < 7 ∧
      (phase1NbThreads 3 3 7 = min 7 (3 / (3 + 1)) ∧
        (3 < 3 + 1 → phase1NbThreads 3 3 7 = 0)) :=
  ⟨by decide, C1_phase1_thread_count 3 3 7 (by decide)⟩

/-- C3: the sequence of values returned by n successive getProbeToken calls of
one AliasHintCollector run is exactly 1, 2, ..., n (as long as the 64-bit
token counter cannot wrap, i.e. n < 2^64). -/
theorem C3_probe_token_sequence (n : Nat) (h : n < 2 ^ 64) :
    probeTokens n = List.range' 1 n :=
  probeTokensFrom_eq_range' n 1 (by omega)

theorem C3_probe_token_sequence_witness :
    5 < 2 ^ 64 ∧ probeTokens 5 = List.range' 1 5 :=
  ⟨by norm_num, C3_probe_token_sequence 5 (by norm_num)⟩

/-! ### Lemmas on the preprocessing loop (claim C2) -/

theorem lookUp_append (t s : IPLookUpTable) (a : InetAddress) :
    IPLookUpTable.lookUp (t ++ s) a = (t.lookUp a).or (s.lookUp a) := by
  simp [IPLookUpTable.lookUp]

theorem ensureEntry_isSome (t : IPLookUpTable) (c : InetAddress) (ttl : Nat) :
    ((ensureEntry t c ttl).lookUp c).isSome := by
  unfold ensureEntry
  by_cases h : (IPLookUpTable.lookUp t c).isSome
  · rw [if_pos h]
    exact h
  · have hn : IPLookUpTable.lookUp t c = none := Option.not_isSome_iff_eq_none.mp h
    rw [if_neg h, IPLookUpTable.createWithTTL, lookUp_append, hn, Option.none_or]
    simp [IPLookUpTable.lookUp]

theorem ensureEntry_eq_append (t : IPLookUpTable) (c : InetAddress) (ttl : Nat) :
    ∃ s : List IPTableEntry, ensureEntry t c ttl = t ++ s ∧ ∀ e ∈ s, e.ttl = ttl := by
  unfold ensureEntry
  by_cases h : (IPLookUpTable.lookUp t c).isSome
  · exact ⟨[], by simp [h], by simp⟩
  · refine ⟨[⟨c, ttl, IPIDCounterType.UNKNOWN⟩], by simp [h, IPLookUpTable.createWithTTL], ?_⟩
    intro e he
    simp at he
    subst he
    rfl

theorem preprocessLoop_table (currentTTL : Nat) :
    ∀ (l : List InetAddress) (prev : InetAddress) (t : IPLookUpTable),
      ∃ s : List IPTableEntry,
        (preprocessLoop currentTTL prev t l).2 = t ++ s ∧ ∀ e ∈ s, e.ttl = currentTTL := by
  intro l
  induction l with
  | nil =>
    intro prev t
    exact ⟨[], by simp [preprocessLoop], by simp⟩
  | cons c rest ih =>
    intro prev t
    by_cases hc : c = prev
    · subst hc
      have heq : preprocessLoop currentTTL c t (c :: rest)
          = preprocessLoop currentTTL c t rest := by
        simp [preprocessLoop]
      rw [heq]
      exact ih c t
    · have heq : preprocessLoop currentTTL prev t (c :: rest)
          = (c :: (preprocessLoop currentTTL c (ensureEntry t c currentTTL) rest).1,
              (preprocessLoop currentTTL c (ensureEntry t c currentTTL) rest).2) := by
        simp [preprocessLoop, hc]
      rw [heq]
      obtain ⟨s1, hs1, hts1⟩ := ensureEntry_eq_append t c currentTTL
      obtain ⟨s2, hs2, hts2⟩ := ih c (ensureEntry t c currentTTL)
      refine ⟨s1 ++ s2, ?_, ?_⟩
      · show (preprocessLoop currentTTL c (ensureEntry t c currentTTL) rest).2 = t ++ (s1 ++ s2)
        rw [hs2, hs1, List.append_assoc]
      · intro e he
        rcases List.mem_append.mp he with h | h
        · exact hts1 e h
        · exact hts2 e h

theorem lookUp_isSome_preprocessLoop (currentTTL : Nat)
    (l : List InetAddress) (prev : InetAddress) (t : IPLookUpTable) (a : InetAddress)
    (h : (t.lookUp a).isSome) :
    (((preprocessLoop currentTTL prev t l).2).lookUp a).isSome := by
  obtain ⟨s, hs, -⟩ := preprocessLoop_table currentTTL l prev t
  obtain ⟨e, he⟩ := Option.isSome_iff_exists.mp h
  rw [hs, lookUp_append, he]
  rfl

theorem preprocessLoop_mem_isSome (currentTTL : Nat) :
    ∀ (l : List InetAddress) (prev : InetAddress) (t : IPLookUpTable),
      ∀ a ∈ (preprocessLoop currentTTL prev t l).1,
        (((preprocessLoop currentTTL prev t l).2).lookUp a).isSome := by
  intro l
  induction l with
  | nil =>
    intro prev t a ha
    simp [preprocessLoop] at ha
  | cons c rest ih =>
    intro prev t a ha
    by_cases hc : c = prev
    · subst hc
      have heq : preprocessLoop currentTTL c t (c :: rest)
          = preprocessLoop currentTTL c t rest := by
        simp [preprocessLoop]
      rw [heq] at ha ⊢
      exact ih c t a ha
    · have heq : preprocessLoop currentTTL prev t (c :: rest)
          = (c :: (preprocessLoop currentTTL c (ensureEntry t c currentTTL) rest).1,
              (preprocessLoop currentTTL c (ensureEntry t c currentTTL) rest).2) := by
        simp [preprocessLoop, hc]
      rw [heq] at ha ⊢
      rcases List.mem_cons.mp ha with h | h
      · subst h
        exact lookUp_isSome_preprocessLoop currentTTL rest a (ensureEntry t a currentTTL) a
          (ensureEntry_isSome t a currentTTL)
      · exact ih c (ensureEntry t c currentTTL) a h

theorem preprocessLoop_new_ttl (currentTTL : Nat)
    (l : List InetAddress) (prev : InetAddress) (t : IPLookUpTable)
    (a : InetAddress) (e : IPTableEntry)
    (h0 : t.lookUp a = none)
    (h1 : ((preprocessLoop currentTTL prev t l).2).lookUp a = some e) :
    e.ttl = currentTTL := by
  obtain ⟨s, hs, hts⟩ := preprocessLoop_table currentTTL l prev t
  rw [hs, lookUp_append, h0, Option.none_or] at h1
  exact hts e (List.mem_of_find?_eq_some h1)

theorem mergeSort_le_sorted (l : List InetAddress) :
    (l.mergeSort (fun a b => ! InetAddress.smaller b a)).Pairwise (fun a b => a ≤ b) := by
  have htrans : ∀ a b c : InetAddress,
      (! InetAddress.smaller b a) = true → (! InetAddress.smaller c b) = true →
        (! InetAddress.smaller c a) = true := by
    intro a b c hab hbc
    simp only [InetAddress.smaller, Bool.not_eq_true', decide_eq_false_iff_not] at hab hbc ⊢
    have h1 : a ≤ b := Nat.le_of_not_lt hab
    have h2 : b ≤ c := Nat.le_of_not_lt hbc
    exact Nat.not_lt.mpr (h1.trans h2)
  have htotal : ∀ a b : InetAddress,
      ((! InetAddress.smaller b a) || (! InetAddress.smaller a b)) = true := by
    intro a b
    rcases Nat.le_total a b with h | h
    · have hx : ¬ b < a := Nat.not_lt.mpr h
      simp [InetAddress.smaller, hx]
    · have hx : ¬ a < b := Nat.not_lt.mpr h
      simp [InetAddress.smaller, hx]
  have h := @List.sorted_mergeSort InetAddress (fun a b => ! InetAddress.smaller b a)
    htrans htotal l
  exact h.imp (fun hab => by simpa [InetAddress.smaller] using hab)

theorem preprocessLoop_sorted (currentTTL : Nat) :
    ∀ (l : List InetAddress) (prev : InetAddress) (t : IPLookUpTable),
      l.Pairwise (fun a b => a ≤ b) → (∀ x ∈ l, prev ≤ x) →
        (preprocessLoop currentTTL prev t l).1.Pairwise (fun a b => a < b) ∧
          ∀ x ∈ (preprocessLoop currentTTL prev t l).1, prev < x := by
  intro l
  induction l with
  | nil =>
    intro prev t _ _
    constructor
    · exact List.Pairwise.nil
    · intro x hx
      simp [preprocessLoop] at hx
  | cons c rest ih =>
    intro prev t hp hlb
    rw [List.pairwise_cons] at hp
    obtain ⟨hc_le, hrest⟩ := hp
    by_cases hc : c = prev
    · subst hc
      have heq : preprocessLoop currentTTL c t (c :: rest)
          = preprocessLoop currentTTL c t rest := by
        simp [preprocessLoop]
      rw [heq]
      exact ih c t hrest hc_le
    · have hpc : prev < c :=
        lt_of_le_of_ne (hlb c (List.mem_cons_self c rest)) (fun h => hc h.symm)
      have heq : preprocessLoop currentTTL prev t (c :: rest)
          = (c :: (preprocessLoop currentTTL c (ensureEntry t c currentTTL) rest).1,
              (preprocessLoop currentTTL c (ensureEntry t c currentTTL) rest).2) := by
        simp [preprocessLoop, hc]
      rw [heq]
      obtain ⟨ht_pw, ht_lb⟩ := ih c (ensureEntry t c currentTTL) hrest hc_le
      constructor
      · exact List.pairwise_cons.mpr ⟨ht_lb, ht_pw⟩
      · intro x hx
        rcases List.mem_cons.mp hx with h | h
        · subst h
          exact hpc
        · exact lt_trans hpc (ht_lb x h)

/-- C2: after the preprocessing loop at the start of AliasHintCollector::collect,
for every initial contents of IPsToProbe, the list is strictly sorted in
ascending InetAddress order (hence sorted and free of duplicates), every
address remaining in the list has an entry in the IP table, and every entry
newly created by the loop has its TTL set to the collector's current
neighborhood TTL. -/
theorem C2_preprocess_invariants (ips : List InetAddress) (t : IPLookUpTable)
    (currentTTL : Nat) :
    (collectPreprocess ips t currentTTL).1.Pairwise (fun a b => a < b) ∧
      (∀ a ∈ (collectPreprocess ips t currentTTL).1,
        (((collectPreprocess ips t currentTTL).2).lookUp a).isSome) ∧
      (∀ (a : InetAddress) (e : IPTableEntry), t.lookUp a = none →
        ((collectPreprocess ips t currentTTL).2).lookUp a = some e → e.ttl = currentTTL) := by
  refine ⟨?_, ?_, ?_⟩
  · exact (preprocessLoop_sorted currentTTL
      (ips.mergeSort (fun a b => ! InetAddress.smaller b a)) 0 t
      (mergeSort_le_sorted ips) (fun x _ => Nat.zero_le x)).1
  · exact preprocessLoop_mem_isSome currentTTL
      (ips.mergeSort (fun a b => ! InetAddress.smaller b a)) 0 t
  · intro a e h0 h1
    exact preprocessLoop_new_ttl currentTTL
      (ips.mergeSort (fun a b => ! InetAddress.smaller b a)) 0 t a e h0 h1

theorem C2_preprocess_invariants_witness :
    (collectPreprocess [9, 3, 9, 1] [⟨3, 5, IPIDCounterType.UNKNOWN⟩] 7).1.Pairwise
        (fun a b => a < b) ∧
      (∀ a ∈ (collectPreprocess [9, 3, 9, 1] [⟨3, 5, IPIDCounterType.UNKNOWN⟩] 7).1,
        (((collectPreprocess [9, 3, 9, 1] [⟨3, 5, IPIDCounterType.UNKNOWN⟩] 7).2).lookUp
            a).isSome) ∧
      (∀ (a : InetAddress) (e : IPTableEntry),
        IPLookUpTable.lookUp [⟨3, 5, IPIDCounterType.UNKNOWN⟩] a = none →
        ((collectPreprocess [9, 3, 9, 1] [⟨3, 5, IPIDCounterType.UNKNOWN⟩] 7).2).lookUp a
            = some e → e.ttl = 7) :=
  C2_preprocess_invariants [9, 3, 9, 1] [⟨3, 5, IPIDCounterType.UNKNOWN⟩] 7

/-! ### Router (v3 Forester, Router.cpp) -/

/-- The alias methods a RouterInterface can be tagged with; class
RouterInterface is not under src/, the method set is the spec's. -/
inductive AliasMethod where
  | IP_ID_BASED
  | UDP_PORT_UNREACHABLE
  | REVERSE_DNS
  | GROUP_ECHO
  | GROUP_RANDOM
  | GROUP_RESERVED
deriving DecidableEq

/-- Modelled from the spec: class RouterInterface (not under src/) pairs an ip
with the alias method that grouped it; RouterInterface::smaller orders
interfaces by ip. -/
structure RouterInterface where
  ip : InetAddress
  aliasMethod : AliasMethod
deriving DecidableEq

/-- Modelled from the spec: RouterInterface::smaller, the strict by-ip
comparator used by Router::addInterface's sorting call. -/
def RouterInterface.smaller (a b : RouterInterface) : Bool := decide (a.ip < b.ip)

/-- A Router owns an ordered list of interfaces (Router.cpp). -/
structure Router where
  interfaces : List RouterInterface
deriving DecidableEq

/-- Router::Router: the constructor creates a router with no interfaces. -/
def Router.new : Router := ⟨[]⟩

/-- Router::addInterface lines 30-35: push the new interface at the back, then
sort the list with RouterInterface::smaller (std::list::sort is stable). -/
def Router.addInterface (r : Router) (ip : InetAddress) (m : AliasMethod) : Router :=
  ⟨(r.interfaces ++ [RouterInterface.mk ip m]).mergeSort
      (fun a b => ! RouterInterface.smaller b a)⟩

/-- Router::getNbInterfaces lines 37-40: the size of the interface list, cast
to unsigned short (cast made explicit). -/
def Router.getNbInterfaces (r : Router) : Nat :=
  r.interfaces.length % 2 ^ 16

/-- The loop of Router::getMergingPivot lines 54-67: scan the stored interface
order; on an interface tagged UDP_PORT_UNREACHABLE whose looked-up entry
exists and is classified HEALTHY_COUNTER, return that entry. -/
def getMergingPivotAux (t : IPLookUpTable) : List RouterInterface → Option IPTableEntry
  | [] => none
  | i :: rest =>
    if i.aliasMethod = AliasMethod.UDP_PORT_UNREACHABLE then
      match t.lookUp i.ip with
      | some e =>
        if e.counterType = IPIDCounterType.HEALTHY_COUNTER then some e
        else getMergingPivotAux t rest
      | none => getMergingPivotAux t rest
    else getMergingPivotAux t rest

/-- Router::getMergingPivot. -/
def Router.getMergingPivot (r : Router) (t : IPLookUpTable) : Option IPTableEntry :=
  getMergingPivotAux t r.interfaces

/-- The spec's wording for claim C5: an interface is a merging-pivot candidate
when its alias method is UDP_PORT_UNREACHABLE and its IP-ID counter
classification in the table is HEALTHY_COUNTER. -/
def mergingPivotCandidate (t : IPLookUpTable) (i : RouterInterface) : Bool :=
  decide (i.aliasMethod = AliasMethod.UDP_PORT_UNREACHABLE) &&
    (match t.lookUp i.ip with
      | some e => decide (e.counterType = IPIDCounterType.HEALTHY_COUNTER)
      | none => false)

/-- Modelled from the spec: the textual form of an InetAddress (operator<< is
not under src/); IPv4 addresses print as dotted decimal in the spec's
interface examples. -/
def InetAddress.str (a : InetAddress) : String :=
  toString (a / 2 ^ 24 % 256) ++ "." ++ toString (a / 2 ^ 16 % 256) ++ "."
    ++ toString (a / 2 ^ 8 % 256) ++ "." ++ toString (a % 256)

/-- Router::toString lines 69-82: append each interface's ip to the result,
preceded by a single space for every interface but the first. -/
def routerToStringAux : Bool → List RouterInterface → String
  | _, [] => ""
  | first, i :: rest =>
    (if first then "" else " ") ++ InetAddress.str i.ip ++ routerToStringAux false rest

/-- Router::toString. -/
def Router.toString (r : Router) : String :=
  routerToStringAux true r.interfaces

/-- The Router invariant stated by the spec's data model: at least two
interfaces, or exactly one interface associated via the UDP-port-unreachable
method. -/
def Router.invariantHolds (r : Router) : Prop :=
  2 ≤ r.interfaces.length ∨
    (r.interfaces.length = 1 ∧
      ∀ i ∈ r.interfaces, i.aliasMethod = AliasMethod.UDP_PORT_UNREACHABLE)

/-! ### Lemmas on Router -/

theorem addInterface_length (r : Router) (ip : InetAddress) (m : AliasMethod) :
    (r.addInterface ip m).interfaces.length = r.interfaces.length + 1 := by
  simp [Router.addInterface]

theorem addInterface_sorted (r : Router) (ip : InetAddress) (m : AliasMethod) :
    ((r.addInterface ip m).interfaces.map RouterInterface.ip).Pairwise
      (fun a b => a ≤ b) := by
  have htrans : ∀ a b c : RouterInterface,
      (! RouterInterface.smaller b a) = true → (! RouterInterface.smaller c b) = true →
        (! RouterInterface.smaller c a) = true := by
    intro a b c hab hbc
    simp only [RouterInterface.smaller, Bool.not_eq_true', decide_eq_false_iff_not]
      at hab hbc ⊢
    have h1 : a.ip ≤ b.ip := Nat.le_of_not_lt hab
    have h2 : b.ip ≤ c.ip := Nat.le_of_not_lt hbc
    exact Nat.not_lt.mpr (h1.trans h2)
  have htotal : ∀ a b : RouterInterface,
      ((! RouterInterface.smaller b a) || (! RouterInterface.smaller a b)) = true := by
    intro a b
    rcases Nat.le_total a.ip b.ip with h | h
    · have hx : ¬ b.ip < a.ip := Nat.not_lt.mpr h
      simp [RouterInterface.smaller, hx]
    · have hx : ¬ a.ip < b.ip := Nat.not_lt.mpr h
      simp [RouterInterface.smaller, hx]
  have h := @List.sorted_mergeSort RouterInterface
    (fun a b => ! RouterInterface.smaller b a) htrans htotal
    (r.interfaces ++ [RouterInterface.mk ip m])
  have h2 : ((r.interfaces ++ [RouterInterface.mk ip m]).mergeSort
      (fun a b => ! RouterInterface.smaller b a)).Pairwise (fun a b => a.ip ≤ b.ip) :=
    h.imp (fun hab => by
      simpa [RouterInterface.smaller, Nat.not_lt] using hab)
  show (((r.interfaces ++ [RouterInterface.mk ip m]).mergeSort
      (fun a b => ! RouterInterface.smaller b a)).map RouterInterface.ip).Pairwise
      (fun a b => a ≤ b)
  exact h2.map RouterInterface.ip (fun a b hab => hab)

theorem getMergingPivotAux_eq_find (t : IPLookUpTable) :
    ∀ l : List RouterInterface,
      getMergingPivotAux t l
        = (l.find? (mergingPivotCandidate t)).bind (fun i => t.lookUp i.ip) := by
  intro l
  induction l with
  | nil => rfl
  | cons i rest ih =>
    by_cases hm : i.aliasMethod = AliasMethod.UDP_PORT_UNREACHABLE
    · cases he : IPLookUpTable.lookUp t i.ip with
      | none =>
        have hc : mergingPivotCandidate t i = false := by
          simp [mergingPivotCandidate, hm, he]
        simp [getMergingPivotAux, hm, he, List.find?_cons, hc, ih]
      | some e =>
        by_cases hh : e.counterType = IPIDCounterType.HEALTHY_COUNTER
        · have hc : mergingPivotCandidate t i = true := by
            simp [mergingPivotCandidate, hm, he, hh]
          simp [getMergingPivotAux, hm, he, hh, List.find?_cons, hc]
        · have hc : mergingPivotCandidate t i = false := by
            simp [mergingPivotCandidate, hm, he, hh]
          simp [getMergingPivotAux, hm, he, hh, List.find?_cons, hc, ih]
    · have hc : mergingPivotCandidate t i = false := by
        simp [mergingPivotCandidate, hm]
      simp [getMergingPivotAux, hm, List.find?_cons, hc, ih]

theorem intercalateGo_eq_aux :
    ∀ (l : List RouterInterface) (acc : String),
      String.intercalate.go acc " " (l.map (fun i => InetAddress.str i.ip))
        = acc ++ routerToStringAux false l := by
  intro l
  induction l with
  | nil =>
    intro acc
    show acc = acc ++ ""
    rw [String.append_empty]
  | cons i rest ih =>
    intro acc
    show String.intercalate.go (acc ++ " " ++ InetAddress.str i.ip) " "
        (rest.map (fun i => InetAddress.str i.ip))
      = acc ++ ((if False then "" else " ") ++ InetAddress.str i.ip
          ++ routerToStringAux false rest)
    rw [ih (acc ++ " " ++ InetAddress.str i.ip)]
    simp [String.append_assoc]

theorem routerToString_eq_intercalate (l : List RouterInterface) :
    routerToStringAux true l
      = String.intercalate " " (l.map (fun i => InetAddress.str i.ip)) := by
  cases l with
  | nil => rfl
  | cons i rest =>
    show (if True then "" else " ") ++ InetAddress.str i.ip ++ routerToStringAux false rest
      = String.intercalate.go (InetAddress.str i.ip) " "
          (rest.map (fun i => InetAddress.str i.ip))
    rw [intercalateGo_eq_aux rest (InetAddress.str i.ip)]
    simp

/-! ### Claim theorems on Router -/

/-- C4 counterexample: right after construction a Router owns zero interfaces,
so the claimed invariant (at least two interfaces, or exactly one associated
via UDP-port-unreachable) does not hold. -/
theorem C4_counterexample_empty_router : ¬ Router.new.invariantHolds := by
  intro h
  rcases h with h | ⟨h, -⟩
  · simp [Router.new, Router.invariantHolds] at h
  · simp [Router.new, Router.invariantHolds] at h

/-- C4 (amended): every Router::addInterface call preserves the spec's Router
invariant, but the invariant does not hold right after construction, since
Router::Router creates an empty interface list. -/
theorem C4_addInterface_preserves_invariant (r : Router) (ip : InetAddress)
    (m : AliasMethod) (h : r.invariantHolds) : (r.addInterface ip m).invariantHolds := by
  have hlen := addInterface_length r ip m
  left
  rcases h with h | ⟨h, -⟩ <;> omega

theorem C4_addInterface_preserves_invariant_witness :
    (Router.new.addInterface 5 AliasMethod.UDP_PORT_UNREACHABLE).invariantHolds ∧
      ((Router.new.addInterface 5 AliasMethod.UDP_PORT_UNREACHABLE).addInterface 9
          AliasMethod.IP_ID_BASED).invariantHolds := by
  have h0 : (Router.new.addInterface 5 AliasMethod.UDP_PORT_UNREACHABLE).invariantHolds := by
    right
    constructor
    · simpa [Router.new] using
        addInterface_length Router.new 5 AliasMethod.UDP_PORT_UNREACHABLE
    · intro i hi
      simp [Router.addInterface, Router.new] at hi
      rw [hi]
  exact ⟨h0, C4_addInterface_preserves_invariant _ 9 AliasMethod.IP_ID_BASED h0⟩

/-- C5: Router::getMergingPivot returns the looked-up IPTableEntry of the
first interface, in the router's stored interface order, whose alias method is
UDP_PORT_UNREACHABLE and whose IP-ID counter classification in the table is
HEALTHY_COUNTER (and none when no such interface exists). -/
theorem C5_getMergingPivot_first (r : Router) (t : IPLookUpTable) :
    r.getMergingPivot t
      = (r.interfaces.find? (mergingPivotCandidate t)).bind (fun i => t.lookUp i.ip) :=
  getMergingPivotAux_eq_find t r.interfaces

/-- C6: for every Router built from construction by addInterface calls alone,
the owned interfaces are in ascending ip order, and toString is the single-
whitespace-separated concatenation of the interface IPs in that stored order,
one entry per owned interface. -/
theorem C6_toString_sorted_interfaces (adds : List (InetAddress × AliasMethod)) :
    ((adds.foldl (fun r p => r.addInterface p.1 p.2) Router.new).interfaces.map
        RouterInterface.ip).Pairwise (fun a b => a ≤ b) ∧
      (adds.foldl (fun r p => r.addInterface p.1 p.2) Router.new).toString
        = String.intercalate " "
            ((adds.foldl (fun r p => r.addInterface p.1 p.2) Router.new).interfaces.map
              (fun i => InetAddress.str i.ip)) := by
  constructor
  · induction adds using List.reverseRecOn with
    | nil => exact List.Pairwise.nil
    | append_singleton as a ih =>
      rw [List.foldl_append, List.foldl_cons, List.foldl_nil]
      exact addInterface_sorted _ a.1 a.2
  · exact routerToString_eq_intercalate _

/-- C10: Router::addInterface never merges nor deduplicates: the new interface
list is a permutation of the old list plus exactly the one appended interface
(even when an interface with the same ip is already owned), its length grows
by exactly 1, it stays sorted by ip (so identical ips sit adjacent), and
getNbInterfaces grows by exactly 1 whenever its unsigned-short cast cannot
truncate. -/
theorem C10_addInterface_appends (r : Router) (ip : InetAddress) (m : AliasMethod) :
    (r.addInterface ip m).interfaces.Perm (r.interfaces ++ [⟨ip, m⟩]) ∧
      (r.addInterface ip m).interfaces.length = r.interfaces.length + 1 ∧
      ((r.addInterface ip m).interfaces.map RouterInterface.ip).Pairwise
        (fun a b => a ≤ b) ∧
      (r.interfaces.length + 1 < 2 ^ 16 →
        (r.addInterface ip m).getNbInterfaces = r.getNbInterfaces + 1) := by
  refine ⟨List.mergeSort_perm _ _, addInterface_length r ip m,
    addInterface_sorted r ip m, ?_⟩
  intro h
  have hlen := addInterface_length r ip m
  show (r.addInterface ip m).interfaces.length % 2 ^ 16
    = r.interfaces.length % 2 ^ 16 + 1
  rw [hlen, Nat.mod_eq_of_lt h,
    Nat.mod_eq_of_lt (Nat.lt_of_succ_lt h)]

theorem C10_addInterface_appends_witness :
    ((Router.new.addInterface 7 AliasMethod.REVERSE_DNS).addInterface 7
        AliasMethod.REVERSE_DNS).interfaces.Perm
        ((Router.new.addInterface 7 AliasMethod.REVERSE_DNS).interfaces
          ++ [⟨7, AliasMethod.REVERSE_DNS⟩]) ∧
      ((Router.new.addInterface 7 AliasMethod.REVERSE_DNS).addInterface 7
          AliasMethod.REVERSE_DNS).interfaces.length
        = (Router.new.addInterface 7 AliasMethod.REVERSE_DNS).interfaces.length + 1 ∧
      ((Router.new.addInterface 7 AliasMethod.REVERSE_DNS).addInterface 7
          AliasMethod.REVERSE_DNS).getNbInterfaces
        = (Router.new.addInterface 7 AliasMethod.REVERSE_DNS).getNbInterfaces + 1 := by
  have h := C10_addInterface_appends (Router.new.addInterface 7 AliasMethod.REVERSE_DNS) 7
    AliasMethod.REVERSE_DNS
  have hlen : (Router.new.addInterface 7 AliasMethod.REVERSE_DNS).interfaces.length = 1 := by
    rw [addInterface_length]
    rfl
  refine ⟨h.1, h.2.1, h.2.2.2 ?_⟩
  rw [hlen]
  norm_num

/-! ### SubnetSiteSet::adaptRoutes (grafting) -/

/-- A route: the ordered hop sequence of a subnet site. -/
abbrev RouteHops := List InetAddress

/-- Modelled from the spec: SubnetSiteSet::adaptRoutes is only declared under
src/ (SubnetSiteSet.h lines 111-123); per the spec, a site whose route begins
with the old route segment (exact sequence equality over its length) has that
segment replaced by the new one.  This is the per-site step, returning the new
route and whether the site was modified. -/
def adaptRoute (oldP newP r : RouteHops) : RouteHops × Bool :=
  if oldP.isPrefixOf r then (newP ++ r.drop oldP.length, true) else (r, false)

/-- Modelled from the spec: SubnetSiteSet::adaptRoutes walks the site list,
adapts each route, and returns the amount of sites for which a
transplantation occurred. -/
def adaptRoutes (oldP newP : RouteHops) : List RouteHops → List RouteHops × Nat
  | [] => ([], 0)
  | r :: rest =>
    ((adaptRoute oldP newP r).1 :: (adaptRoutes oldP newP rest).1,
      (if (adaptRoute oldP newP r).2 then 1 else 0) + (adaptRoutes oldP newP rest).2)

/-! ### Lemmas on adaptRoutes (claim C8) -/

theorem adaptRoutes_fst (oldP newP : RouteHops) :
    ∀ sites : List RouteHops,
      (adaptRoutes oldP newP sites).1
        = sites.map (fun r => (adaptRoute oldP newP r).1) := by
  intro sites
  induction sites with
  | nil => rfl
  | cons s rest ih => simp [adaptRoutes, ih]

theorem adaptRoutes_count (oldP newP : RouteHops) :
    ∀ sites : List RouteHops,
      (adaptRoutes oldP newP sites).2
        = sites.countP (fun r => oldP.isPrefixOf r) := by
  intro sites
  induction sites with
  | nil => rfl
  | cons s rest ih =>
    show (if (adaptRoute oldP newP s).2 then 1 else 0) + (adaptRoutes oldP newP rest).2 = _
    rw [List.countP_cons, ih]
    unfold adaptRoute
    by_cases hp : oldP.isPrefixOf s
    · simp only [if_pos hp, hp, if_true]
      omega
    · simp only [if_neg hp, Bool.false_eq_true, if_false]
      simp [hp]

theorem no_oldSeg_of_append (oldP newP : RouteHops) (h1 : ¬ oldP <+: newP)
    (h2 : ¬ newP <+: oldP) (t : RouteHops) : ¬ oldP <+: (newP ++ t) := by
  intro hp
  rcases Nat.le_total oldP.length newP.length with hl | hl
  · exact h1 (List.prefix_of_prefix_length_le hp (List.prefix_append newP t) hl)
  · exact h2 (List.prefix_of_prefix_length_le (List.prefix_append newP t) hp hl)

theorem adaptRoutes_not_oldSeg (oldP newP : RouteHops) (h1 : ¬ oldP <+: newP)
    (h2 : ¬ newP <+: oldP) :
    ∀ sites : List RouteHops, ∀ r ∈ (adaptRoutes oldP newP sites).1, ¬ oldP <+: r := by
  intro sites
  induction sites with
  | nil =>
    intro r hr
    simp [adaptRoutes] at hr
  | cons s rest ih =>
    intro r hr
    have hmem : r = (adaptRoute oldP newP s).1 ∨ r ∈ (adaptRoutes oldP newP rest).1 := by
      simpa [adaptRoutes] using hr
    rcases hmem with h | h
    · subst h
      unfold adaptRoute
      by_cases hp : oldP.isPrefixOf s
      · simp only [if_pos hp]
        exact no_oldSeg_of_append oldP newP h1 h2 (s.drop oldP.length)
      · simp only [if_neg hp]
        exact fun hc => hp (List.isPrefixOf_iff_prefix.mpr hc)
    · exact ih r h

theorem adaptRoutes_second_zero (oldP newP : RouteHops) (sites : List RouteHops)
    (h1 : ¬ oldP <+: newP) (h2 : ¬ newP <+: oldP) :
    (adaptRoutes oldP newP (adaptRoutes oldP newP sites).1).2 = 0 := by
  rw [adaptRoutes_count, List.countP_eq_zero]
  intro r hr
  have hn := adaptRoutes_not_oldSeg oldP newP h1 h2 sites r hr
  simpa using hn

/-! ### Claim theorems on adaptRoutes -/

/-- C8 counterexample: with old = [2,3] and new = [2], old is not a prefix of
new, yet on a site with route [2,3,3] the first adaptRoutes call rewrites the
route to [2,3] and a second call with the same arguments modifies it again
(count 1, not 0), so the claim's idempotence condition fails as stated. -/
theorem C8_counterexample_second_call :
    ¬ (([2, 3] : RouteHops).isPrefixOf ([2] : RouteHops) = true) ∧
      (adaptRoutes [2, 3] [2] (adaptRoutes [2, 3] [2] [[2, 3, 3]]).1).2 = 1 := by
  decide

/-- C8 (amended): adaptRoutes adapts each site independently; a site is
modified exactly when its route begins with old (exact sequence equality over
the first length-of-old hops), every modified site's route begins with new,
unmodified routes are unchanged, the returned count is the number of sites
whose route began with old, and a second call with the same arguments modifies
zero sites whenever neither of old and new is a prefix of the other (old not
being a prefix of new alone does not suffice: when new is a proper prefix of
old a rewritten route can match old again). -/
theorem C8_adaptRoutes_graft (oldP newP : RouteHops) (sites : List RouteHops) :
    (adaptRoutes oldP newP sites).1 = sites.map (fun r => (adaptRoute oldP newP r).1) ∧
      (∀ r : RouteHops, ((adaptRoute oldP newP r).2 = true ↔ oldP <+: r)) ∧
      (∀ r : RouteHops, (adaptRoute oldP newP r).2 = true →
        newP <+: (adaptRoute oldP newP r).1) ∧
      (∀ r : RouteHops, (adaptRoute oldP newP r).2 = false → (adaptRoute oldP newP r).1 = r) ∧
      (adaptRoutes oldP newP sites).2 = sites.countP (fun r => oldP.isPrefixOf r) ∧
      (¬ oldP <+: newP → ¬ newP <+: oldP →
        (adaptRoutes oldP newP (adaptRoutes oldP newP sites).1).2 = 0) := by
  refine ⟨adaptRoutes_fst oldP newP sites, ?_, ?_, ?_, adaptRoutes_count oldP newP sites,
    adaptRoutes_second_zero oldP newP sites⟩
  · intro r
    unfold adaptRoute
    by_cases hp : oldP.isPrefixOf r
    · simp only [if_pos hp]
      simpa using List.isPrefixOf_iff_prefix.mp hp
    · simp only [if_neg hp]
      constructor
      · intro hf
        exact absurd hf (by simp)
      · intro hc
        exact absurd (List.isPrefixOf_iff_prefix.mpr hc) hp
  · intro r hm
    unfold adaptRoute at hm ⊢
    by_cases hp : oldP.isPrefixOf r
    · simp only [if_pos hp]
      exact List.prefix_append newP (r.drop oldP.length)
    · rw [if_neg hp] at hm
      exact absurd hm (by simp)
  · intro r hm
    unfold adaptRoute at hm ⊢
    by_cases hp : oldP.isPrefixOf r
    · rw [if_pos hp] at hm
      exact absurd hm (by simp)
    · rw [if_neg hp]

theorem C8_adaptRoutes_graft_witness :
    (¬ ([1, 2] : RouteHops) <+: ([8, 9] : RouteHops)) ∧
      (¬ ([8, 9] : RouteHops) <+: ([1, 2] : RouteHops)) ∧
      (adaptRoutes [1, 2] [8, 9] [[1, 2, 5], [3]]).2
        = List.countP (fun r => List.isPrefixOf [1, 2] r) [[1, 2, 5], [3]] ∧
      (adaptRoutes [1, 2] [8, 9] (adaptRoutes [1, 2] [8, 9] [[1, 2, 5], [3]]).1).2 = 0 :=
  ⟨by decide, by decide,
    (C8_adaptRoutes_graft [1, 2] [8, 9] [[1, 2, 5], [3]]).2.2.2.2.1,
    (C8_adaptRoutes_graft [1, 2] [8, 9] [[1, 2, 5], [3]]).2.2.2.2.2 (by decide) (by decide)⟩

/-! ### AliasHintCollector: phase-2 source-port bands (claim C7) -/

/-- AliasHintCollector::collect line 142: the width of each source-port band,
an unsigned-short division of the configured source-port range by maxThreads.
The two DirectProber port constants are not under src/ and appear here as the
parameters lower and upper. -/
def srcPortBandWidth (lower upper maxThreads : Nat) : Nat :=
  (upper - lower) / maxThreads

/-- AliasHintCollector::collect line 158: the lower source port handed to the
phase-2 worker dispatched on pool slot j (unsigned-short conversion made
explicit). -/
def srcPortBandLo (lower upper maxThreads j : Nat) : Nat :=
  (lower + j * srcPortBandWidth lower upper maxThreads) % 2 ^ 16

/-- AliasHintCollector::collect line 159: the upper source port handed to the
phase-2 worker on pool slot j.  The C++ expression lower + j*range + range - 1
is computed in int and converted to unsigned short; adding 2^16 - 1 instead of
subtracting 1 before reducing modulo 2^16 yields the same unsigned-short value
for every input. -/
def srcPortBandHi (lower upper maxThreads j : Nat) : Nat :=
  (lower + j * srcPortBandWidth lower upper maxThreads
      + srcPortBandWidth lower upper maxThreads + (2 ^ 16 - 1)) % 2 ^ 16

/-- The set of source ports inside the band of pool slot j. -/
def srcPortBand (lower upper maxThreads j : Nat) : Set Nat :=
  {p | srcPortBandLo lower upper maxThreads j ≤ p ∧
    p ≤ srcPortBandHi lower upper maxThreads j}

/-! ### Lemmas on the source-port bands -/

theorem srcPortBand_bounds (lower upper maxThreads j : Nat)
    (hlu : lower ≤ upper) (hup : upper < 2 ^ 16) (hmt : maxThreads ≤ upper - lower)
    (hj : j < maxThreads) :
    srcPortBandLo lower upper maxThreads j
        = lower + j * srcPortBandWidth lower upper maxThreads ∧
      srcPortBandHi lower upper maxThreads j
        = lower + j * srcPortBandWidth lower upper maxThreads
            + srcPortBandWidth lower upper maxThreads - 1 := by
  have hmtpos : 0 < maxThreads := Nat.lt_of_le_of_lt (Nat.zero_le j) hj
  have hr1 : 1 ≤ srcPortBandWidth lower upper maxThreads :=
    (Nat.one_le_div_iff hmtpos).mpr hmt
  have hmr : maxThreads * srcPortBandWidth lower upper maxThreads ≤ upper - lower := by
    rw [srcPortBandWidth, Nat.mul_comm]
    exact Nat.div_mul_le_self _ _
  have hj1r : (j + 1) * srcPortBandWidth lower upper maxThreads
      ≤ maxThreads * srcPortBandWidth lower upper maxThreads :=
    Nat.mul_le_mul_right _ hj
  have hexp : (j + 1) * srcPortBandWidth lower upper maxThreads
      = j * srcPortBandWidth lower upper maxThreads
        + srcPortBandWidth lower upper maxThreads := by ring
  unfold srcPortBandLo srcPortBandHi
  constructor <;> omega

theorem srcPortBands_disjoint_of_lt (lower upper maxThreads j1 j2 : Nat)
    (hlu : lower ≤ upper) (hup : upper < 2 ^ 16) (hmt : maxThreads ≤ upper - lower)
    (hj2 : j2 < maxThreads) (hlt : j1 < j2) :
    Disjoint (srcPortBand lower upper maxThreads j1)
      (srcPortBand lower upper maxThreads j2) := by
  have hj1 : j1 < maxThreads := Nat.lt_trans hlt hj2
  obtain ⟨hlo1, hhi1⟩ := srcPortBand_bounds lower upper maxThreads j1 hlu hup hmt hj1
  obtain ⟨hlo2, hhi2⟩ := srcPortBand_bounds lower upper maxThreads j2 hlu hup hmt hj2
  have hmtpos : 0 < maxThreads := Nat.lt_of_le_of_lt (Nat.zero_le j2) hj2
  have hr1 : 1 ≤ srcPortBandWidth lower upper maxThreads :=
    (Nat.one_le_div_iff hmtpos).mpr hmt
  have hmul : (j1 + 1) * srcPortBandWidth lower upper maxThreads
      ≤ j2 * srcPortBandWidth lower upper maxThreads :=
    Nat.mul_le_mul_right _ hlt
  have hexp : (j1 + 1) * srcPortBandWidth lower upper maxThreads
      = j1 * srcPortBandWidth lower upper maxThreads
        + srcPortBandWidth lower upper maxThreads := by ring
  rw [Set.disjoint_left]
  intro p hp1 hp2
  have h1 : p ≤ srcPortBandHi lower upper maxThreads j1 := hp1.2
  have h2 : srcPortBandLo lower upper maxThreads j2 ≤ p := hp2.1
  omega

/-! ### Claim theorem on the source-port bands -/

/-- C7: in phase 2 of AliasHintCollector::collect, the source-port interval
is split into maxThreads contiguous bands of width
range = (upper - lower) / maxThreads, the worker on pool slot j receiving
ports lower + j*range through lower + j*range + range - 1, and for a valid
configuration (lower ≤ upper < 2^16 and maxThreads ≤ upper - lower, so the
band width is at least 1) any two workers dispatched on distinct pool slots
receive disjoint source-port bands, hence no two concurrently running workers
share a source port. -/
theorem C7_phase2_port_bands (lower upper maxThreads j1 j2 : Nat)
    (hlu : lower ≤ upper) (hup : upper < 2 ^ 16) (hmt : maxThreads ≤ upper - lower)
    (hj1 : j1 < maxThreads) (hj2 : j2 < maxThreads) (hne : j1 ≠ j2) :
    (∀ j : Nat, j < maxThreads →
      srcPortBandLo lower upper maxThreads j
          = lower + j * srcPortBandWidth lower upper maxThreads ∧
        srcPortBandHi lower upper maxThreads j
          = lower + j * srcPortBandWidth lower upper maxThreads
              + srcPortBandWidth lower upper maxThreads - 1) ∧
      Disjoint (srcPortBand lower upper maxThreads j1)
        (srcPortBand lower upper maxThreads j2) := by
  constructor
  · intro j hj
    exact srcPortBand_bounds lower upper maxThreads j hlu hup hmt hj
  · rcases Nat.lt_or_ge j1 j2 with hlt | hge
    · exact srcPortBands_disjoint_of_lt lower upper maxThreads j1 j2 hlu hup hmt hj2 hlt
    · have hlt : j2 < j1 := Nat.lt_of_le_of_ne hge (Ne.symm hne)
      exact (srcPortBands_disjoint_of_lt lower upper maxThreads j2 j1 hlu hup hmt hj1
        hlt).symm

theorem C7_phase2_port_bands_witness :
    20000 ≤ 30000 ∧ 30000 < 2 ^ 16 ∧ 8 ≤ 30000 - 20000 ∧ 0 < 8 ∧ 1 < 8 ∧ (0 : Nat) ≠ 1 ∧
      Disjoint (srcPortBand 20000 30000 8 0) (srcPortBand 20000 30000 8 1) :=
  ⟨by decide, by decide, by decide, by decide, by decide, by decide,
    (C7_phase2_port_bands 20000 30000 8 0 1 (by decide) (by decide) (by decide)
      (by decide) (by decide) (by decide)).2⟩

/-! ### AliasHintCollector: phase scheduling and barriers (claim C9) -/

/-- An orchestrator event of AliasHintCollector::collect: starting a worker
thread or joining it. -/
inductive ThreadEv where
  | start (id : Nat)
  | join (id : Nat)
deriving DecidableEq

/-- The orchestrator state inside one dispatch loop of
AliasHintCollector::collect: the thread-pool slots (the th array), the event
trace so far, the identity of the next worker to start, and the pool index j. -/
structure SchedState where
  slots : Nat → Option Nat
  trace : List ThreadEv
  nextId : Nat
  j : Nat

/-- One iteration of a dispatch loop of AliasHintCollector::collect: join and
clear the occupant of slot j if any, start the next worker on slot j, then
advance j, wrapping at the given bound. -/
def dispatchStep (wrap : Nat) (s : SchedState) : SchedState :=
  ⟨fun k => if k = s.j then some s.nextId else s.slots k,
    (match s.slots s.j with
      | some w => s.trace ++ [ThreadEv.join w]
      | none => s.trace) ++ [ThreadEv.start s.nextId],
    s.nextId + 1,
    if s.j + 1 = wrap then 0 else s.j + 1⟩

/-- A dispatch loop running n iterations (one per IP to probe). -/
def dispatchRun (wrap : Nat) (s : SchedState) : Nat → SchedState
  | 0 => s
  | n + 1 => dispatchRun wrap (dispatchStep wrap s) n

/-- The drain loop ending each phase of AliasHintCollector::collect
(e.g. lines 114-123): join the occupant of every slot below the thread-array
size, in index order. -/
def drainTrace (nbThreads : Nat) (slots : Nat → Option Nat) : List ThreadEv :=
  (List.range nbThreads).filterMap (fun k => (slots k).map ThreadEv.join)

/-- The state at the start of a phase: empty pool, empty trace, worker ids
numbered from startId, pool index 0. -/
def phaseInit (startId : Nat) : SchedState :=
  ⟨fun _ => none, [], startId, 0⟩

/-- One phase of AliasHintCollector::collect: dispatch one worker per IP,
joining the previous occupant of a slot before reusing it, then drain the
pool.  wrap is the bound at which the pool index wraps (the phase-1 thread
count in phase 1, maxThreads in phases 2 to 4); nbThreads is the size of the
thread array.  Returns the phase's event trace and the next worker id. -/
def runPhase (wrap nbThreads nbIPs startId : Nat) : List ThreadEv × Nat :=
  ((dispatchRun wrap (phaseInit startId) nbIPs).trace
      ++ drainTrace nbThreads (dispatchRun wrap (phaseInit startId) nbIPs).slots,
    (dispatchRun wrap (phaseInit startId) nbIPs).nextId)

/-- The event traces of the four probing phases of AliasHintCollector::collect
over nbIPs preprocessed IPs: phase 1 wraps the pool index at the phase-1
thread count, phases 2 to 4 wrap it at maxThreads and use a thread array of
size min(nbIPs, maxThreads). -/
def collectPhaseTraces (maxThreads nbIPIDs nbIPs : Nat) : List (List ThreadEv) :=
  let n1 := phase1NbThreads maxThreads nbIPIDs nbIPs
  let n2 := laterPhasesNbThreads maxThreads nbIPs
  let p1 := runPhase n1 n1 nbIPs 0
  let p2 := runPhase maxThreads n2 nbIPs p1.2
  let p3 := runPhase maxThreads n2 nbIPs p2.2
  let p4 := runPhase maxThreads n2 nbIPs p3.2
  [p1.1, p2.1, p3.1, p4.1]

/-! ### Lemmas on the phase scheduler -/

/-- The dispatch-loop invariant after m iterations: the pool index is in
range and bounded by the iteration count, occupied slots sit below both the
wrap bound and the iteration count, and every started worker is already
joined or still parked in some slot. -/
def DispatchInv (wrap m : Nat) (s : SchedState) : Prop :=
  s.j < wrap ∧ s.j ≤ m ∧
    (∀ k : Nat, (s.slots k).isSome → k < wrap ∧ k < m) ∧
    (∀ w : Nat, ThreadEv.start w ∈ s.trace →
      ThreadEv.join w ∈ s.trace ∨ ∃ k : Nat, s.slots k = some w)

theorem dispatchStep_inv (wrap m : Nat) (s : SchedState) (hwrap : 1 ≤ wrap)
    (h : DispatchInv wrap m s) : DispatchInv wrap (m + 1) (dispatchStep wrap s) := by
  obtain ⟨hj, hjm, hslots, htrace⟩ := h
  have hjnew : (dispatchStep wrap s).j < wrap ∧ (dispatchStep wrap s).j ≤ m + 1 := by
    show (if s.j + 1 = wrap then 0 else s.j + 1) < wrap
      ∧ (if s.j + 1 = wrap then 0 else s.j + 1) ≤ m + 1
    by_cases hw : s.j + 1 = wrap
    · rw [if_pos hw]
      omega
    · rw [if_neg hw]
      omega
  refine ⟨hjnew.1, hjnew.2, ?_, ?_⟩
  · intro k hk
    by_cases hkj : k = s.j
    · subst hkj
      exact ⟨hj, by omega⟩
    · have hk' : (s.slots k).isSome := by
        simpa [dispatchStep, hkj] using hk
      obtain ⟨h1, h2⟩ := hslots k hk'
      exact ⟨h1, by omega⟩
  · intro w hw
    cases hocc : s.slots s.j with
    | none =>
      have hw' : ThreadEv.start w ∈ s.trace ++ [ThreadEv.start s.nextId] := by
        simpa [dispatchStep, hocc] using hw
      rcases List.mem_append.mp hw' with hmem | hmem
      · rcases htrace w hmem with hjn | ⟨k, hk⟩
        · left
          show ThreadEv.join w ∈ (match s.slots s.j with
              | some v => s.trace ++ [ThreadEv.join v]
              | none => s.trace) ++ [ThreadEv.start s.nextId]
          rw [hocc]
          exact List.mem_append.mpr (Or.inl hjn)
        · right
          have hkj : k ≠ s.j := by
            intro he
            rw [he, hocc] at hk
            exact Option.noConfusion hk
          exact ⟨k, by simpa [dispatchStep, hkj] using hk⟩
      · have hwid : w = s.nextId := by
          simpa using hmem
        right
        exact ⟨s.j, by simp [dispatchStep, hwid]⟩
    | some v =>
      have hw' : ThreadEv.start w
          ∈ (s.trace ++ [ThreadEv.join v]) ++ [ThreadEv.start s.nextId] := by
        simpa [dispatchStep, hocc] using hw
      rcases List.mem_append.mp hw' with hmem | hmem
      · have hmem' : ThreadEv.start w ∈ s.trace := by
          rcases List.mem_append.mp hmem with hm | hm
          · exact hm
          · simp at hm
        rcases htrace w hmem' with hjn | ⟨k, hk⟩
        · left
          show ThreadEv.join w ∈ (match s.slots s.j with
              | some u => s.trace ++ [ThreadEv.join u]
              | none => s.trace) ++ [ThreadEv.start s.nextId]
          rw [hocc]
          exact List.mem_append.mpr (Or.inl (List.mem_append.mpr (Or.inl hjn)))
        · by_cases hkj : k = s.j
          · left
            have hvw : v = w := by
              rw [hkj, hocc] at hk
              exact Option.some.inj hk
            show ThreadEv.join w ∈ (match s.slots s.j with
                | some u => s.trace ++ [ThreadEv.join u]
                | none => s.trace) ++ [ThreadEv.start s.nextId]
            rw [hocc, hvw]
            exact List.mem_append.mpr (Or.inl (List.mem_append.mpr (Or.inr (by simp))))
          · right
            exact ⟨k, by simpa [dispatchStep, hkj] using hk⟩
      · have hwid : w = s.nextId := by
          simpa using hmem
        right
        exact ⟨s.j, by simp [dispatchStep, hwid]⟩

theorem dispatchRun_inv (wrap : Nat) (hwrap : 1 ≤ wrap) :
    ∀ (n m : Nat) (s : SchedState), DispatchInv wrap m s →
      DispatchInv wrap (m + n) (dispatchRun wrap s n) := by
  intro n
  induction n with
  | zero => intro m s h; exact h
  | succ k ih =>
    intro m s h
    have h2 := ih (m + 1) (dispatchStep wrap s) (dispatchStep_inv wrap m s hwrap h)
    have hmk : m + (k + 1) = m + 1 + k := by omega
    rw [hmk]
    exact h2

theorem phaseInit_inv (wrap startId : Nat) (hwrap : 1 ≤ wrap) :
    DispatchInv wrap 0 (phaseInit startId) := by
  refine ⟨hwrap, Nat.le_refl 0, ?_, ?_⟩
  · intro k hk
    simp [phaseInit] at hk
  · intro w hw
    simp [phaseInit] at hw

theorem runPhase_drains (wrap nbThreads nbIPs startId : Nat)
    (hwrap : 1 ≤ wrap) (hnb : min nbIPs wrap ≤ nbThreads) :
    ∀ w : Nat, ThreadEv.start w ∈ (runPhase wrap nbThreads nbIPs startId).1 →
      ThreadEv.join w ∈ (runPhase wrap nbThreads nbIPs startId).1 := by
  intro w hw
  obtain ⟨hj, hjm, hslots, htrace⟩ := dispatchRun_inv wrap hwrap nbIPs 0
    (phaseInit startId) (phaseInit_inv wrap startId hwrap)
  have hw' : ThreadEv.start w ∈ (dispatchRun wrap (phaseInit startId) nbIPs).trace
      ∨ ThreadEv.start w
          ∈ drainTrace nbThreads (dispatchRun wrap (phaseInit startId) nbIPs).slots := by
    simpa [runPhase] using hw
  rcases hw' with h | h
  · rcases htrace w h with hjn | ⟨k, hk⟩
    · exact List.mem_append.mpr (Or.inl hjn)
    · obtain ⟨hk1, hk2⟩ := hslots k (by simp [hk])
      have hklt : k < nbThreads := by omega
      have hdr : ThreadEv.join w
          ∈ drainTrace nbThreads (dispatchRun wrap (phaseInit startId) nbIPs).slots := by
        unfold drainTrace
        exact List.mem_filterMap.mpr ⟨k, List.mem_range.mpr hklt, by rw [hk]; rfl⟩
      exact List.mem_append.mpr (Or.inr hdr)
  · exfalso
    obtain ⟨k, -, hmap⟩ := List.mem_filterMap.mp h
    cases hsk : (dispatchRun wrap (phaseInit startId) nbIPs).slots k with
    | none =>
      rw [hsk] at hmap
      exact Option.noConfusion hmap
    | some v =>
      rw [hsk] at hmap
      simp at hmap

theorem runPhase_of_no_ip (wrap nbThreads startId : Nat) :
    (runPhase wrap nbThreads 0 startId).1 = [] := by
  simp [runPhase, dispatchRun, phaseInit, drainTrace]

/-! ### Claim theorem on the phase barrier -/

/-- C9: in AliasHintCollector::collect (for a configuration accepted by the
phase-1 sizing, i.e. nbIPIDs + 1 <= maxThreads), the phase barrier is strict:
in the orchestrator's event trace, every worker started during a phase is also
joined within that same phase's trace segment, so all workers of phase k are
joined before any worker of phase k+1 is started and per-IP results are
written in phase order. -/
theorem C9_phase_barrier (maxThreads nbIPIDs nbIPs : Nat)
    (hvalid : nbIPIDs + 1 ≤ maxThreads) :
    ∀ seg ∈ collectPhaseTraces maxThreads nbIPIDs nbIPs,
      ∀ w : Nat, ThreadEv.start w ∈ seg → ThreadEv.join w ∈ seg := by
  by_cases hips : nbIPs = 0
  · subst hips
    intro seg hseg w hw
    simp [collectPhaseTraces, runPhase_of_no_ip] at hseg
    rw [hseg] at hw
    simp at hw
  · have hmt1 : 1 ≤ maxThreads := by omega
    have hn1 : 1 ≤ phase1NbThreads maxThreads nbIPIDs nbIPs := by
      rw [phase1NbThreads_eq_min]
      have hc : 1 ≤ maxCollectors maxThreads nbIPIDs := by
        unfold maxCollectors
        exact (Nat.one_le_div_iff (by omega)).mpr hvalid
      have hip : 1 ≤ nbIPs := Nat.one_le_iff_ne_zero.mpr hips
      omega
    have hmin2 : min nbIPs maxThreads ≤ laterPhasesNbThreads maxThreads nbIPs := by
      rw [laterPhasesNbThreads_eq_min]
    intro seg hseg w hw
    simp only [collectPhaseTraces, List.mem_cons, List.not_mem_nil, or_false] at hseg
    rcases hseg with h | h | h | h <;> rw [h] at hw
    · exact h ▸ runPhase_drains _ _ _ _ hn1 (Nat.min_le_right _ _) w hw
    · exact h ▸ runPhase_drains _ _ _ _ hmt1 hmin2 w hw
    · exact h ▸ runPhase_drains _ _ _ _ hmt1 hmin2 w hw
    · exact h ▸ runPhase_drains _ _ _ _ hmt1 hmin2 w hw

theorem C9_phase_barrier_witness :
    1 + 1 ≤ 4 ∧
      ∀ seg ∈ collectPhaseTraces 4 1 3, ∀ w : Nat,
        ThreadEv.start w ∈ seg → ThreadEv.join w ∈ seg :=
  ⟨by decide, C9_phase_barrier 4 1 3 (by decide)⟩
